import Mathlib

/-!
Verification of the chunking and orchestration core of
`smart_study_notes_streamlit.py`.

Python strings are embedded as `List Char` (`PyStr`); the Python string
operations used by the program (`split`, `strip`, `join`, `replace`,
`len`, slicing) are embedded as structurally recursive Lean functions
with Python's semantics.
-/

/-- A Python string, embedded as a list of characters. -/
abbrev PyStr := List Char

/-- Coerce a Lean string literal to the embedding. -/
def pstr (s : String) : PyStr := s.toList

/-- Python's notion of whitespace as used by `str.strip()`:
space, tab, newline, carriage return, vertical tab, form feed. -/
def isPySpace (c : Char) : Bool :=
  c == ' ' || c == '\t' || c == '\n' || c == '\r' ||
  c == Char.ofNat 11 || c == Char.ofNat 12

/-- Python `s.strip()`: remove leading and trailing whitespace. -/
def pyStrip (s : PyStr) : PyStr :=
  ((s.dropWhile isPySpace).reverse.dropWhile isPySpace).reverse

/-- `not p.strip()` in the source: the paragraph strips to empty. -/
def isBlank (p : PyStr) : Bool := (pyStrip p).isEmpty

/-- The blank-line paragraph separator `"\n\n"`. -/
def sepNN : PyStr := ['\n', '\n']

/-- Prepend a character to the first piece of a split result. -/
def consHead (c : Char) : List PyStr → List PyStr
  | [] => [[c]]
  | p :: ps => (c :: p) :: ps

/-- Python `text.split("\n\n")`: leftmost, non-overlapping occurrences of
the two-character separator cut the string; empty pieces are kept and the
empty string splits to `[""]`. -/
def splitNN : PyStr → List PyStr
  | [] => [[]]
  | [c] => [[c]]
  | c₁ :: c₂ :: cs =>
    if c₁ = '\n' ∧ c₂ = '\n' then [] :: splitNN cs
    else consHead c₁ (splitNN (c₂ :: cs))

/-- Python `s.split(sep)` for a single-character separator. -/
def splitChar (sep : Char) : PyStr → List PyStr
  | [] => [[]]
  | c :: cs => if c = sep then [] :: splitChar sep cs else consHead c (splitChar sep cs)

/-- Python `"\n\n".join(ps)`. -/
def joinNN : List PyStr → PyStr
  | [] => []
  | [p] => p
  | p :: q :: ps => p ++ sepNN ++ joinNN (q :: ps)

/-- One iteration of the paragraph loop of `chunk_text`
(state: `chunks`, `current`, `current_len`). -/
def chunkStep (max_chars : Int) (st : List PyStr × List PyStr × Nat) (p : PyStr) :
    List PyStr × List PyStr × Nat :=
  match st with
  | (chunks, current, current_len) =>
    if isBlank p then (chunks, current, current_len)
    else if (current_len : Int) + p.length + 2 > max_chars then
      (chunks ++ [joinNN current], [p], p.length)
    else
      (chunks, current ++ [p], current_len + p.length + 2)

/-- The `if current: chunks.append("\n\n".join(current))` epilogue. -/
def chunksOut (st : List PyStr × List PyStr × Nat) : List PyStr :=
  if st.2.1.isEmpty then st.1 else st.1 ++ [joinNN st.2.1]

/-- `chunk_text` from the source: split on blank lines, skip blank
paragraphs, greedily accumulate paragraphs while
`current_len + len(p) + 2 <= max_chars`, else close the running chunk. -/
def chunk_text (text : PyStr) (max_chars : Int) : List PyStr :=
  chunksOut ((splitNN text).foldl (chunkStep max_chars) ([], [], 0))

/-- Group-level mirror of `chunkStep`: identical control flow, but a closed
chunk is recorded as its list of paragraphs instead of their join. -/
def chunkGroupsStep (max_chars : Int) (st : List (List PyStr) × List PyStr × Nat)
    (p : PyStr) : List (List PyStr) × List PyStr × Nat :=
  match st with
  | (groups, current, current_len) =>
    if isBlank p then (groups, current, current_len)
    else if (current_len : Int) + p.length + 2 > max_chars then
      (groups ++ [current], [p], p.length)
    else
      (groups, current ++ [p], current_len + p.length + 2)

/-- Epilogue of the group-level mirror. -/
def groupsOut (st : List (List PyStr) × List PyStr × Nat) : List (List PyStr) :=
  if st.2.1.isEmpty then st.1 else st.1 ++ [st.2.1]

/-- The paragraph groups underlying the chunks of `chunk_text`:
chunk `i` of `chunk_text text m` is the blank-line join of group `i`. -/
def chunkGroups (text : PyStr) (max_chars : Int) : List (List PyStr) :=
  groupsOut ((splitNN text).foldl (chunkGroupsStep max_chars) ([], [], 0))

/-- `needle` occurs at the start of `hay`. -/
def leadsWith : PyStr → PyStr → Bool
  | [], _ => true
  | _ :: _, [] => false
  | a :: as, b :: bs => a == b && leadsWith as bs

/-- `needle` occurs as a contiguous substring of `hay`. -/
def isSubstring (needle : PyStr) : PyStr → Bool
  | [] => needle.isEmpty
  | c :: cs => leadsWith needle (c :: cs) || isSubstring needle cs

/-- Error raised by `summarize_chunks` before or during model calls. -/
inductive SumError (ε : Type) where
  | noApiKey : SumError ε
  | callerError : ε → SumError ε
deriving DecidableEq

/-- Python truthiness of `openai.api_key`: `None` and `""` are falsy. -/
def truthy : Option PyStr → Bool
  | none => false
  | some s => ! s.isEmpty

/-- `api_key or os.environ.get("OPENAI_API_KEY")`: the explicit argument if
truthy, otherwise the environment lookup result. -/
def resolve_key (api_key env_key : Option PyStr) : Option PyStr :=
  if truthy api_key then api_key else env_key

/-- The per-chunk summarization prompt built in `summarize_chunks`. -/
def chunkPrompt (c : PyStr) : PyStr :=
  pstr "You are an assistant that converts lecture text into concise study bullet points.\n\nText:\n"
    ++ c
    ++ pstr "\n\nProduce a short summary of the main points in 6-12 bullet points, each 8-20 words max. Use plain language."

/-- The final combination prompt built in `summarize_chunks`. -/
def combinePrompt (combined : PyStr) : PyStr :=
  pstr "Combine and deduplicate the following summarized bullet points into a single coherent set of 10-20 bullets suitable for study notes. Maintain clarity and concision.\n\n"
    ++ combined

/-- The key-terms prompt built in `generate_key_terms`. -/
def keyTermsPrompt (text : PyStr) : PyStr :=
  pstr "From the following lecture text, extract 12–20 important key terms or concepts. Return as a comma-separated list.\n\nText:\n"
    ++ text

/-- The quiz prompt built in `generate_quiz`. -/
def quizPrompt (count : Nat) (text : PyStr) : PyStr :=
  pstr "Create " ++ pstr (toString count)
    ++ pstr " short quiz questions (mix of multiple-choice and short-answer) from the lecture text. For multiple choice provide 4 options and mark the correct answer after the question. Keep questions fair for revision.\n\nText:\n"
    ++ text

/-- The per-chunk loop of `summarize_chunks`. A model caller is a function
from the call index (number of prior calls) and the prompt to either the
response text or an error; the first component of the result is the trace
of prompts actually sent. -/
def sumLoop (caller : Nat → PyStr → Except ε PyStr) :
    List PyStr → Nat → List PyStr → List PyStr × Except ε (List PyStr)
  | [], _, summaries => ([], Except.ok summaries)
  | c :: rest, n, summaries =>
    match caller n (chunkPrompt c) with
    | Except.error e => ([chunkPrompt c], Except.error e)
    | Except.ok r =>
      let out := sumLoop caller rest (n + 1) (summaries ++ [pyStrip r])
      (chunkPrompt c :: out.1, out.2)

/-- `summarize_chunks` from the source: resolve the API key and raise if it
is missing, then one model call per chunk collecting stripped responses,
then one combination call over the summaries joined by blank lines,
returning the stripped final response. The first component is the trace of
prompts sent to the model. -/
def summarize_chunks (caller : Nat → PyStr → Except ε PyStr) (chunks : List PyStr)
    (api_key env_key : Option PyStr) : List PyStr × Except (SumError ε) PyStr :=
  if ! truthy (resolve_key api_key env_key) then ([], Except.error SumError.noApiKey)
  else
    let out := sumLoop caller chunks 0 []
    match out.2 with
    | Except.error e => (out.1, Except.error (SumError.callerError e))
    | Except.ok summaries =>
      match caller chunks.length (combinePrompt (joinNN summaries)) with
      | Except.error e =>
        (out.1 ++ [combinePrompt (joinNN summaries)], Except.error (SumError.callerError e))
      | Except.ok final =>
        (out.1 ++ [combinePrompt (joinNN summaries)], Except.ok (pyStrip final))

/-- The key-term post-processing in `generate_key_terms`:
`[i.strip() for i in out.replace("\n", ",").split(",") if i.strip()][:20]`. -/
def key_terms_post (out : PyStr) : List PyStr :=
  ((splitChar ',' (out.map (fun c => if c = '\n' then ',' else c))).filterMap
    (fun i => if (pyStrip i).isEmpty then none else some (pyStrip i))).take 20

/-- `generate_key_terms` from the source: resolves the API key but performs
no missing-key check; makes exactly one model call and post-processes the
stripped response. -/
def generate_key_terms (caller : Nat → PyStr → Except ε PyStr) (text : PyStr)
    (api_key env_key : Option PyStr) : List PyStr × Except ε (List PyStr) :=
  match caller 0 (keyTermsPrompt text) with
  | Except.error e => ([keyTermsPrompt text], Except.error e)
  | Except.ok r => ([keyTermsPrompt text], Except.ok (key_terms_post (pyStrip r)))

/-- `generate_quiz` from the source: resolves the API key but performs no
missing-key check; makes exactly one model call and strips the response. -/
def generate_quiz (caller : Nat → PyStr → Except ε PyStr) (text : PyStr) (count : Nat)
    (api_key env_key : Option PyStr) : List PyStr × Except ε PyStr :=
  match caller 0 (quizPrompt count text) with
  | Except.error e => ([quizPrompt count text], Except.error e)
  | Except.ok r => ([quizPrompt count text], Except.ok (pyStrip r))

/-! ## Lemmas about `splitNN` -/

/-- Prepend a whole string to the first piece of a split result. -/
def consFirst (l : PyStr) : List PyStr → List PyStr
  | [] => [l]
  | p :: ps => (l ++ p) :: ps

lemma splitNN_ne_nil : ∀ l : PyStr, splitNN l ≠ []
  | [] => by simp [splitNN]
  | [c] => by simp [splitNN]
  | c₁ :: c₂ :: cs => by
    simp only [splitNN]
    split
    · simp
    · cases h : splitNN (c₂ :: cs) with
      | nil => exact absurd h (splitNN_ne_nil (c₂ :: cs))
      | cons p ps => simp [consHead]

lemma consHead_consFirst (c : Char) (l : PyStr) (ps : List PyStr) :
    consHead c (consFirst l ps) = consFirst (c :: l) ps := by
  cases ps <;> simp [consHead, consFirst]

lemma splitNN_append_no_newline :
    ∀ (l r : PyStr), '\n' ∉ l → splitNN (l ++ r) = consFirst l (splitNN r)
  | [], r, _ => by
    cases h : splitNN r with
    | nil => exact absurd h (splitNN_ne_nil r)
    | cons p ps => simp [consFirst, h]
  | c :: l', r, h => by
    have hc : c ≠ '\n' := fun hc => h (hc ▸ List.mem_cons_self c l')
    have hl' : '\n' ∉ l' := fun hm => h (List.mem_cons_of_mem c hm)
    cases hlr : l' ++ r with
    | nil =>
      obtain ⟨hl, hr⟩ := List.append_eq_nil.mp hlr
      subst hl; subst hr
      simp [splitNN, consFirst]
    | cons d t =>
      have : (c :: l') ++ r = c :: d :: t := by simp [hlr]
      rw [this]
      simp only [splitNN]
      rw [if_neg (fun hand => hc hand.1)]
      rw [← hlr, splitNN_append_no_newline l' r hl', consHead_consFirst]

lemma splitNN_sep_cons (r : PyStr) : splitNN (sepNN ++ r) = [] :: splitNN r := by
  show splitNN ('\n' :: '\n' :: r) = [] :: splitNN r
  simp [splitNN]

lemma splitNN_no_newline (l : PyStr) (h : '\n' ∉ l) : splitNN l = [l] := by
  have := splitNN_append_no_newline l [] h
  rw [List.append_nil] at this
  rw [this]
  simp [splitNN, consFirst]

lemma splitNN_two (l₁ l₂ : PyStr) (h₁ : '\n' ∉ l₁) (h₂ : '\n' ∉ l₂) :
    splitNN (l₁ ++ sepNN ++ l₂) = [l₁, l₂] := by
  rw [List.append_assoc, splitNN_append_no_newline l₁ _ h₁, splitNN_sep_cons,
    splitNN_no_newline l₂ h₂]
  simp [consFirst]

/-! ## Lemmas about the chunking loop -/

lemma foldl_chunk_groups (m : Int) :
    ∀ (ps : List PyStr) (groups : List (List PyStr)) (cur : List PyStr) (n : Nat),
      ps.foldl (chunkStep m) (groups.map joinNN, cur, n)
        = ((ps.foldl (chunkGroupsStep m) (groups, cur, n)).1.map joinNN,
           (ps.foldl (chunkGroupsStep m) (groups, cur, n)).2) := by
  intro ps
  induction ps with
  | nil => intro groups cur n; simp
  | cons p ps ih =>
    intro groups cur n
    simp only [List.foldl_cons, chunkStep, chunkGroupsStep]
    by_cases hb : isBlank p
    · simp only [hb, if_pos]
      exact ih groups cur n
    · by_cases hov : (n : Int) + p.length + 2 > m
      · simp only [hb, if_neg, hov, if_pos, Bool.false_eq_true, not_false_iff]
        have := ih (groups ++ [cur]) [p] p.length
        simpa using this
      · simp only [hb, if_neg, hov, Bool.false_eq_true, not_false_iff]
        exact ih groups (cur ++ [p]) (n + p.length + 2)

lemma chunksOut_groupsOut (st : List (List PyStr) × List PyStr × Nat) :
    chunksOut (st.1.map joinNN, st.2) = (groupsOut st).map joinNN := by
  obtain ⟨g, cur, n⟩ := st
  by_cases h : cur.isEmpty <;> simp [chunksOut, groupsOut, h]

lemma chunk_text_eq_groups (text : PyStr) (m : Int) :
    chunk_text text m = (chunkGroups text m).map joinNN := by
  unfold chunk_text chunkGroups
  have h := foldl_chunk_groups m (splitNN text) [] [] 0
  simp only [List.map_nil] at h
  rw [h]
  exact chunksOut_groupsOut _

lemma foldl_groups_flatten (m : Int) :
    ∀ (ps : List PyStr) (groups : List (List PyStr)) (cur : List PyStr) (n : Nat),
      (groupsOut (ps.foldl (chunkGroupsStep m) (groups, cur, n))).flatten
        = groups.flatten ++ cur ++ ps.filter (fun p => ! isBlank p) := by
  intro ps
  induction ps with
  | nil =>
    intro groups cur n
    by_cases h : cur.isEmpty <;>
      simp_all [groupsOut, List.isEmpty_iff]
  | cons p ps ih =>
    intro groups cur n
    simp only [List.foldl_cons, chunkGroupsStep]
    by_cases hb : isBlank p
    · simp only [hb, if_pos]
      rw [ih groups cur n]
      simp [List.filter_cons, hb]
    · by_cases hov : (n : Int) + p.length + 2 > m
      · simp only [hb, if_neg, hov, if_pos, Bool.false_eq_true, not_false_iff]
        rw [ih (groups ++ [cur]) [p] p.length]
        simp [List.filter_cons, hb, List.append_assoc]
      · simp only [hb, if_neg, hov, Bool.false_eq_true, not_false_iff]
        rw [ih groups (cur ++ [p]) (n + p.length + 2)]
        simp [List.filter_cons, hb, List.append_assoc]

lemma chunkGroups_flatten (text : PyStr) (m : Int) :
    (chunkGroups text m).flatten = (splitNN text).filter (fun p => ! isBlank p) := by
  unfold chunkGroups
  have h := foldl_groups_flatten m (splitNN text) [] [] 0
  simpa using h

lemma foldl_chunkStep_blank (m : Int) :
    ∀ (ps : List PyStr) (st : List PyStr × List PyStr × Nat),
      (∀ p ∈ ps, isBlank p = true) → ps.foldl (chunkStep m) st = st := by
  intro ps
  induction ps with
  | nil => intro st _; rfl
  | cons p ps ih =>
    intro st h
    obtain ⟨chunks, cur, n⟩ := st
    have hp : isBlank p := h p (List.mem_cons_self p ps)
    simp only [List.foldl_cons, chunkStep, hp, if_pos]
    exact ih _ (fun q hq => h q (List.mem_cons_of_mem p hq))

lemma foldl_chunkStep_chunks_append (m : Int) :
    ∀ (ps : List PyStr) (chunks cur : List PyStr) (n : Nat),
      ps.foldl (chunkStep m) (chunks, cur, n)
        = (chunks ++ (ps.foldl (chunkStep m) ([], cur, n)).1,
           (ps.foldl (chunkStep m) ([], cur, n)).2) := by
  intro ps
  induction ps with
  | nil => intro chunks cur n; simp
  | cons p ps ih =>
    intro chunks cur n
    simp only [List.foldl_cons, chunkStep]
    by_cases hb : isBlank p
    · simp only [hb, if_pos]
      exact ih chunks cur n
    · by_cases hov : (n : Int) + p.length + 2 > m
      · simp only [hb, if_neg, hov, if_pos, Bool.false_eq_true, not_false_iff,
          List.nil_append]
        rw [ih (chunks ++ [joinNN cur]) [p] p.length, ih [joinNN cur] [p] p.length]
        simp [List.append_assoc]
      · simp only [hb, if_neg, hov, Bool.false_eq_true, not_false_iff]
        exact ih chunks (cur ++ [p]) (n + p.length + 2)

lemma joinNN_append_single (l : List PyStr) (p : PyStr) :
    joinNN (l ++ [p]) = if l.isEmpty then p else joinNN l ++ sepNN ++ p := by
  induction l with
  | nil => simp [joinNN]
  | cons q l ih =>
    cases l with
    | nil => simp [joinNN]
    | cons r t =>
      have h1 : (q :: r :: t) ++ [p] = q :: ((r :: t) ++ [p]) := by simp
      rw [h1]
      have h2 : (r :: t) ++ [p] = r :: (t ++ [p]) := by simp
      rw [h2]
      show q ++ sepNN ++ joinNN (r :: (t ++ [p])) = _
      rw [← h2, ih]
      simp [joinNN, List.append_assoc]

/-- The single-chunk size guarantee: a chunk is within the bound or is a
single oversized non-blank paragraph of the input. -/
def GoodChunk (m : Int) (paras : List PyStr) (c : PyStr) : Prop :=
  ((c.length : Int) ≤ m) ∨
    ∃ p, p ∈ paras ∧ isBlank p = false ∧ c = p ∧ m < (p.length : Int)

/-- Loop invariant of `chunk_text` relating the running chunk to its
recorded length. -/
def ChunkInv (m : Int) (cur : List PyStr) (n : Nat) : Prop :=
  (cur = [] ∧ n = 0) ∨
    (cur ≠ [] ∧ (joinNN cur).length ≤ n ∧
      ((n : Int) ≤ m ∨ ∃ p, cur = [p] ∧ n = p.length))

lemma goodChunk_of_inv {m : Int} (hm : 1 ≤ m) {paras : List PyStr}
    {cur : List PyStr} {n : Nat} (hinv : ChunkInv m cur n)
    (hmem : ∀ q ∈ cur, q ∈ paras ∧ isBlank q = false) :
    GoodChunk m paras (joinNN cur) := by
  rcases hinv with ⟨hcur, hn⟩ | ⟨hne, hlen, hcase⟩
  · subst hcur
    left
    simp [joinNN]
    omega
  · by_cases hle : (n : Int) ≤ m
    · left
      have : ((joinNN cur).length : Int) ≤ (n : Int) := Int.ofNat_le.mpr hlen
      omega
    · rcases hcase with h | ⟨p, hcur, hnp⟩
      · exact absurd h hle
      · subst hcur
        right
        refine ⟨p, (hmem p (List.mem_cons_self p [])).1,
          (hmem p (List.mem_cons_self p [])).2, ?_, ?_⟩
        · simp [joinNN]
        · have : m < (n : Int) := lt_of_not_le hle
          omega

lemma chunk_fold_invariant (m : Int) (hm : 1 ≤ m) (paras : List PyStr) :
    ∀ (ps : List PyStr) (chunks cur : List PyStr) (n : Nat),
      (∀ q ∈ ps, q ∈ paras) →
      (∀ c ∈ chunks, GoodChunk m paras c) →
      ChunkInv m cur n →
      (∀ q ∈ cur, q ∈ paras ∧ isBlank q = false) →
      (∀ c ∈ (ps.foldl (chunkStep m) (chunks, cur, n)).1, GoodChunk m paras c) ∧
        ChunkInv m (ps.foldl (chunkStep m) (chunks, cur, n)).2.1
          (ps.foldl (chunkStep m) (chunks, cur, n)).2.2 ∧
        (∀ q ∈ (ps.foldl (chunkStep m) (chunks, cur, n)).2.1,
          q ∈ paras ∧ isBlank q = false) := by
  intro ps
  induction ps with
  | nil => intro chunks cur n _ hchunks hinv hmem; exact ⟨hchunks, hinv, hmem⟩
  | cons p ps ih =>
    intro chunks cur n hps hchunks hinv hmem
    have hp : p ∈ paras := hps p (List.mem_cons_self p ps)
    have hps' : ∀ q ∈ ps, q ∈ paras := fun q hq => hps q (List.mem_cons_of_mem p hq)
    simp only [List.foldl_cons, chunkStep]
    by_cases hb : isBlank p
    · simp only [hb, if_pos]
      exact ih chunks cur n hps' hchunks hinv hmem
    · by_cases hov : (n : Int) + p.length + 2 > m
      · simp only [hb, if_neg, hov, if_pos, Bool.false_eq_true, not_false_iff]
        refine ih _ _ _ hps' ?_ ?_ ?_
        · intro c hc
          rcases List.mem_append.mp hc with h | h
          · exact hchunks c h
          · rw [List.mem_singleton.mp h]
            exact goodChunk_of_inv hm hinv hmem
        · right
          refine ⟨by simp, ?_, Or.inr ⟨p, rfl, rfl⟩⟩
          simp [joinNN]
        · intro q hq
          rw [List.mem_singleton.mp hq]
          exact ⟨hp, Bool.eq_false_iff.mpr hb⟩
      · simp only [hb, if_neg, hov, Bool.false_eq_true, not_false_iff]
        refine ih _ _ _ hps' hchunks ?_ ?_
        · right
          refine ⟨by simp, ?_, Or.inl ?_⟩
          · rw [joinNN_append_single]
            by_cases hc : cur.isEmpty
            · simp only [hc, if_pos]
              omega
            · simp only [hc, if_neg, Bool.false_eq_true, not_false_iff]
              have hlen : (joinNN cur).length ≤ n := by
                rcases hinv with ⟨hcur, hn⟩ | ⟨_, hlen, _⟩
                · subst hcur; simp at hc
                · exact hlen
              simp only [List.length_append, sepNN, List.length_cons,
                List.length_nil]
              omega
          · have : (n : Int) + p.length + 2 ≤ m := le_of_not_lt hov
            push_cast
            omega
        · intro q hq
          rcases List.mem_append.mp hq with h | h
          · exact hmem q h
          · rw [List.mem_singleton.mp h]
            exact ⟨hp, Bool.eq_false_iff.mpr hb⟩

lemma chunk_head_empty_of_oversized (m : Int) :
    ∀ (ps : List PyStr) (p : PyStr),
      ((ps.filter (fun q => ! isBlank q)).head? = some p) →
      ((p.length : Int) + 2 > m) →
      (chunksOut (ps.foldl (chunkStep m) ([], [], 0))).head? = some [] := by
  intro ps
  induction ps with
  | nil => intro p h; simp at h
  | cons q ps ih =>
    intro p hhead hov
    by_cases hb : isBlank q
    · rw [List.filter_cons] at hhead
      simp only [hb, Bool.not_true, Bool.false_eq_true, if_neg,
        not_false_iff] at hhead
      simp only [List.foldl_cons, chunkStep, hb, if_pos]
      exact ih p hhead hov
    · rw [List.filter_cons] at hhead
      have hb' : (! isBlank q) = true := by simp [hb]
      rw [if_pos hb'] at hhead
      simp only [List.head?_cons, Option.some_inj] at hhead
      subst hhead
      simp only [List.foldl_cons, chunkStep, hb, Bool.false_eq_true, if_neg,
        not_false_iff]
      rw [if_pos (by push_cast; omega)]
      rw [List.nil_append]
      rw [foldl_chunkStep_chunks_append m ps [joinNN []] [q] q.length]
      unfold chunksOut
      by_cases hc : (List.foldl (chunkStep m) ([], [q], q.length) ps).2.1.isEmpty <;>
        simp [hc, joinNN]

/-! ## Lemmas about the summarization loop -/

lemma sumLoop_ok {ε : Type} (caller : Nat → PyStr → Except ε PyStr)
    (f : Nat → PyStr → PyStr) (hok : ∀ n p, caller n p = Except.ok (f n p)) :
    ∀ (rest : List PyStr) (n : Nat) (acc : List PyStr),
      sumLoop caller rest n acc
        = (rest.map chunkPrompt,
           Except.ok (acc ++ (rest.enumFrom n).map
             (fun ic => pyStrip (f ic.1 (chunkPrompt ic.2))))) := by
  intro rest
  induction rest with
  | nil => intro n acc; simp [sumLoop]
  | cons c rest ih =>
    intro n acc
    simp only [sumLoop, hok]
    rw [ih (n + 1) (acc ++ [pyStrip (f n (chunkPrompt c))])]
    simp [List.enumFrom_cons]

lemma sumLoop_error_at {ε : Type} (caller : Nat → PyStr → Except ε PyStr) (e : ε) :
    ∀ (rest : List PyStr) (n : Nat) (acc : List PyStr) (j : Nat),
      j < rest.length →
      (∀ i, i < j → ∃ r, caller (n + i) (chunkPrompt (rest.getD i [])) = Except.ok r) →
      caller (n + j) (chunkPrompt (rest.getD j [])) = Except.error e →
      sumLoop caller rest n acc = ((rest.take (j + 1)).map chunkPrompt, Except.error e) := by
  intro rest
  induction rest with
  | nil => intro n acc j hj; simp at hj
  | cons c rest ih =>
    intro n acc j hj hok herr
    cases j with
    | zero =>
      rw [Nat.add_zero, List.getD_cons_zero] at herr
      simp only [sumLoop, herr]
      simp
    | succ j =>
      obtain ⟨r, hr⟩ := hok 0 (Nat.succ_pos j)
      rw [Nat.add_zero, List.getD_cons_zero] at hr
      simp only [sumLoop, hr]
      have ih' := ih (n + 1) (acc ++ [pyStrip r]) j
        (Nat.lt_of_succ_lt_succ (by simpa using hj))
        (fun i hi => by
          have h := hok (i + 1) (Nat.succ_lt_succ hi)
          rw [List.getD_cons_succ] at h
          have harith : n + (i + 1) = n + 1 + i := by omega
          rw [harith] at h
          exact h)
        (by
          have h := herr
          rw [List.getD_cons_succ] at h
          have harith : n + (j + 1) = n + 1 + j := by omega
          rw [harith] at h
          exact h)
      rw [ih']
      simp [List.take_succ_cons]

/-! ## The oversized-paragraph example input -/

/-- `"A" * 5000`. -/
def bigA : PyStr := List.replicate 5000 'A'

/-- `"B" * 10`. -/
def bigB : PyStr := List.replicate 10 'B'

/-- `"A" * 5000 + "\n\n" + "B" * 10`. -/
def oversizedText : PyStr := bigA ++ sepNN ++ bigB

lemma dropWhile_replicate_of_neg {p : Char → Bool} {c : Char} (hc : p c = false) :
    ∀ n, List.dropWhile p (List.replicate n c) = List.replicate n c := by
  intro n
  cases n with
  | zero => rfl
  | succ k => simp [List.replicate_succ, List.dropWhile_cons, hc]

lemma pyStrip_replicate {c : Char} (hc : isPySpace c = false) (n : Nat) :
    pyStrip (List.replicate n c) = List.replicate n c := by
  unfold pyStrip
  rw [dropWhile_replicate_of_neg hc, List.reverse_replicate,
    dropWhile_replicate_of_neg hc, List.reverse_replicate]

lemma isBlank_replicate_succ {c : Char} (hc : isPySpace c = false) (n : Nat) :
    isBlank (List.replicate (n + 1) c) = false := by
  unfold isBlank
  rw [pyStrip_replicate hc, List.replicate_succ]
  rfl

lemma newline_not_mem_bigA : '\n' ∉ bigA := by
  intro h
  have := List.eq_of_mem_replicate h
  simp at this

lemma newline_not_mem_bigB : '\n' ∉ bigB := by
  intro h
  have := List.eq_of_mem_replicate h
  simp at this

lemma splitNN_oversizedText : splitNN oversizedText = [bigA, bigB] :=
  splitNN_two bigA bigB newline_not_mem_bigA newline_not_mem_bigB

lemma chunk_text_oversized_eval : chunk_text oversizedText 4000 = [[], bigA, bigB] := by
  unfold chunk_text
  rw [splitNN_oversizedText]
  have hbA : isBlank bigA = false := isBlank_replicate_succ (by decide) 4999
  have hbB : isBlank bigB = false := isBlank_replicate_succ (by decide) 9
  have hlA : bigA.length = 5000 := by unfold bigA; rw [List.length_replicate]
  have hlB : bigB.length = 10 := by unfold bigB; rw [List.length_replicate]
  simp only [List.foldl_cons, List.foldl_nil, chunkStep, hbA, hbB,
    Bool.false_eq_true, if_neg, not_false_iff, hlA, hlB]
  rw [if_pos (by norm_num)]
  rw [if_pos (by norm_num)]
  simp [chunksOut, joinNN]

/-! ## Claim theorems -/

/-- Claim C1: for every input text and every `max_chars`, concatenating, in
order, the paragraphs of every chunk returned by `chunk_text` (chunk `i`
being the blank-line join of its paragraph group `i`) reproduces exactly the
original sequence of non-blank paragraphs of the input: no non-blank
paragraph is dropped, duplicated, or reordered. -/
theorem chunk_text_preserves_paragraph_sequence (text : PyStr) (max_chars : Int) :
    (chunkGroups text max_chars).flatten
        = (splitNN text).filter (fun p => ! isBlank p)
      ∧ chunk_text text max_chars = (chunkGroups text max_chars).map joinNN :=
  ⟨chunkGroups_flatten text max_chars, chunk_text_eq_groups text max_chars⟩

/-- Claim C2 (counterexample): on `"A"*5000 + "\n\n" + "B"*10` with
`max_chars = 4000`, `chunk_text` does not return the two chunks
`["A"*5000, "B"*10]`: it returns three chunks, with a leading empty chunk. -/
theorem chunk_text_oversized_not_two_chunks :
    chunk_text oversizedText 4000 ≠ [bigA, bigB] := by
  rw [chunk_text_oversized_eval]
  intro h
  have hlen := congrArg List.length h
  simp at hlen

/-- Claim C2 (amended): on `"A"*5000 + "\n\n" + "B"*10` with
`max_chars = 4000`, `chunk_text` returns exactly three chunks: an empty
chunk, then the oversized `"A"*5000` alone, then `"B"*10`. -/
theorem chunk_text_oversized_three_chunks :
    chunk_text oversizedText 4000 = [[], bigA, bigB] :=
  chunk_text_oversized_eval

/-- Claim C3: for every input and every `max_chars ≥ 1`, every chunk either
is a single non-blank paragraph of the input that is itself longer than
`max_chars`, or has length at most `max_chars` (hence within the bound plus
separator overhead). -/
theorem chunk_text_size_bound (text : PyStr) (max_chars : Int) (hm : 1 ≤ max_chars) :
    ∀ c ∈ chunk_text text max_chars,
      ((c.length : Int) ≤ max_chars) ∨
        ∃ p, p ∈ splitNN text ∧ isBlank p = false ∧ c = p ∧
          max_chars < (p.length : Int) := by
  intro c hc
  unfold chunk_text at hc
  have h := chunk_fold_invariant max_chars hm (splitNN text) (splitNN text) [] [] 0
    (fun q hq => hq) (by simp) (Or.inl ⟨rfl, rfl⟩) (by simp)
  unfold chunksOut at hc
  by_cases hcur : ((splitNN text).foldl (chunkStep max_chars) ([], [], 0)).2.1.isEmpty
  · rw [if_pos hcur] at hc
    exact h.1 c hc
  · rw [if_neg hcur] at hc
    rcases List.mem_append.mp hc with hmem | hmem
    · exact h.1 c hmem
    · rw [List.mem_singleton.mp hmem]
      exact goodChunk_of_inv hm h.2.1 h.2.2

/-- Witness for C3 at a concrete input with an oversized paragraph. -/
theorem chunk_text_size_bound_witness :
    (1 : Int) ≤ 3 ∧ ∀ c ∈ chunk_text (pstr "aaaa\n\nbb") 3,
      ((c.length : Int) ≤ 3) ∨
        ∃ p, p ∈ splitNN (pstr "aaaa\n\nbb") ∧ isBlank p = false ∧ c = p ∧
          3 < (p.length : Int) :=
  ⟨by norm_num, chunk_text_size_bound (pstr "aaaa\n\nbb") 3 (by norm_num)⟩

/-- Claim C4: if every blank-line-separated paragraph of the input strips to
empty (in particular for empty or whitespace-only input), `chunk_text`
returns the empty sequence of chunks. -/
theorem chunk_text_blank_input (text : PyStr) (max_chars : Int)
    (h : (splitNN text).all isBlank = true) :
    chunk_text text max_chars = [] := by
  unfold chunk_text
  rw [foldl_chunkStep_blank max_chars (splitNN text) ([], [], 0)
    (fun p hp => List.all_eq_true.mp h p hp)]
  rfl

/-- Witness for C4 on a whitespace-only input. -/
theorem chunk_text_blank_input_witness :
    (splitNN (pstr " \n\n\t")).all isBlank = true
      ∧ chunk_text (pstr " \n\n\t") 4000 = [] :=
  ⟨by decide, chunk_text_blank_input (pstr " \n\n\t") 4000 (by decide)⟩

/-- Claim C5: key-term post-processing splits the response on commas and
newlines, strips each item, drops empty items and truncates to 20; on the
response `"a, b,\nc"` it yields `["a", "b", "c"]`, and the result never has
more than 20 elements. -/
theorem generate_key_terms_postprocessing :
    (generate_key_terms (fun _ _ => (Except.ok (pstr "a, b,\nc") : Except Unit PyStr))
        (pstr "lecture") none none).2
      = Except.ok [pstr "a", pstr "b", pstr "c"]
    ∧ ∀ out : PyStr, (key_terms_post out).length ≤ 20 :=
  ⟨rfl, fun out => List.length_take_le 20 _⟩

/-- Claim C6 (counterexample): with no API key supplied (explicit argument
and environment lookup both absent), `generate_key_terms` does not raise a
configuration error before calling the model: it makes its model call
(trace length 1) and returns the processed response. -/
theorem generate_key_terms_without_key_calls_model :
    (generate_key_terms (fun _ _ => (Except.ok (pstr "t1, t2") : Except Unit PyStr))
        (pstr "lec") none none).1.length = 1
      ∧ (generate_key_terms (fun _ _ => (Except.ok (pstr "t1, t2") : Except Unit PyStr))
          (pstr "lec") none none).2 = Except.ok [pstr "t1", pstr "t2"] :=
  ⟨rfl, rfl⟩

/-- Claim C6 (amended): with no API key, `summarize_chunks` raises the
configuration error before any model call (empty call trace), while
`generate_key_terms` and `generate_quiz` resolve the key the same way but
perform their single model call without a missing-key check. -/
theorem missing_key_aborts_summarize_only {ε : Type}
    (caller : Nat → PyStr → Except ε PyStr) (chunks : List PyStr)
    (text : PyStr) (count : Nat) (api_key env_key : Option PyStr)
    (h : truthy (resolve_key api_key env_key) = false) :
    summarize_chunks caller chunks api_key env_key
        = ([], Except.error SumError.noApiKey)
      ∧ (generate_key_terms caller text api_key env_key).1.length = 1
      ∧ (generate_quiz caller text count api_key env_key).1.length = 1 := by
  refine ⟨?_, ?_, ?_⟩
  · simp [summarize_chunks, h]
  · cases hc : caller 0 (keyTermsPrompt text) <;> simp [generate_key_terms, hc]
  · cases hc : caller 0 (quizPrompt count text) <;> simp [generate_quiz, hc]

/-- Witness for the amended C6 with both key sources absent. -/
theorem missing_key_aborts_summarize_only_witness :
    summarize_chunks (fun _ _ => (Except.ok (pstr "r") : Except Unit PyStr))
        [pstr "c"] none none = ([], Except.error SumError.noApiKey)
      ∧ (generate_key_terms (fun _ _ => (Except.ok (pstr "r") : Except Unit PyStr))
          (pstr "t") none none).1.length = 1
      ∧ (generate_quiz (fun _ _ => (Except.ok (pstr "r") : Except Unit PyStr))
          (pstr "t") 7 none none).1.length = 1 :=
  missing_key_aborts_summarize_only _ _ _ _ _ _ rfl

/-- Claim C7: if the model caller errors on per-chunk call `j` (all earlier
per-chunk calls succeeding), `summarize_chunks` propagates the error,
performs no further per-chunk calls, and never issues the final combination
call: the trace is exactly the first `j + 1` per-chunk prompts. -/
theorem summarize_chunks_aborts_on_error {ε : Type}
    (caller : Nat → PyStr → Except ε PyStr) (chunks : List PyStr)
    (api_key env_key : Option PyStr) (j : Nat) (e : ε)
    (hkey : truthy (resolve_key api_key env_key) = true)
    (hj : j < chunks.length)
    (hok : ∀ i, i < j → ∃ r, caller i (chunkPrompt (chunks.getD i [])) = Except.ok r)
    (herr : caller j (chunkPrompt (chunks.getD j [])) = Except.error e) :
    summarize_chunks caller chunks api_key env_key
      = ((chunks.take (j + 1)).map chunkPrompt,
         Except.error (SumError.callerError e)) := by
  have hl := sumLoop_error_at caller e chunks 0 [] j hj
    (fun i hi => by simpa using hok i hi) (by simpa using herr)
  simp [summarize_chunks, hkey, hl]

/-- Witness for C7: the caller fails on the second of three chunk calls. -/
theorem summarize_chunks_aborts_on_error_witness :
    summarize_chunks
        (fun n _ => if n = 1 then (Except.error () : Except Unit PyStr)
          else Except.ok (pstr "s"))
        [pstr "one", pstr "two", pstr "three"] (some (pstr "k")) none
      = (([pstr "one", pstr "two", pstr "three"].take 2).map chunkPrompt,
         Except.error (SumError.callerError ())) :=
  summarize_chunks_aborts_on_error _ _ _ _ 1 () rfl (by norm_num)
    (fun i hi => ⟨pstr "s", by
      have h0 : i = 0 := by omega
      subst h0
      rfl⟩)
    rfl

/-- Claim C8: with an API key present and a caller that always succeeds,
`summarize_chunks` makes exactly one call per chunk in order, then exactly
one combination call whose input is the stripped per-chunk summaries joined
by blank lines, and returns the combination response stripped of leading
and trailing whitespace. -/
theorem summarize_chunks_success_sequence {ε : Type}
    (caller : Nat → PyStr → Except ε PyStr) (f : Nat → PyStr → PyStr)
    (chunks : List PyStr) (api_key env_key : Option PyStr)
    (hkey : truthy (resolve_key api_key env_key) = true)
    (hcaller : ∀ n p, caller n p = Except.ok (f n p)) :
    summarize_chunks caller chunks api_key env_key
      = (chunks.map chunkPrompt
           ++ [combinePrompt (joinNN ((chunks.enumFrom 0).map
                (fun ic => pyStrip (f ic.1 (chunkPrompt ic.2)))))],
         Except.ok (pyStrip (f chunks.length
           (combinePrompt (joinNN ((chunks.enumFrom 0).map
                (fun ic => pyStrip (f ic.1 (chunkPrompt ic.2))))))))) := by
  have hl := sumLoop_ok caller f hcaller chunks 0 []
  simp only [List.nil_append] at hl
  simp [summarize_chunks, hkey, hl, hcaller]

/-- Witness for C8 with one chunk and a constant caller. -/
theorem summarize_chunks_success_sequence_witness :
    summarize_chunks (fun _ _ => (Except.ok (pstr " r ") : Except Unit PyStr))
        [pstr "c1"] (some (pstr "k")) none
      = ([pstr "c1"].map chunkPrompt
           ++ [combinePrompt (joinNN (([pstr "c1"].enumFrom 0).map
                (fun ic => pyStrip ((fun _ _ => pstr " r ") ic.1 (chunkPrompt ic.2)))))],
         Except.ok (pyStrip ((fun _ _ => pstr " r ") ([pstr "c1"].length)
           (combinePrompt (joinNN (([pstr "c1"].enumFrom 0).map
                (fun ic => pyStrip ((fun _ _ => pstr " r ") ic.1 (chunkPrompt ic.2))))))))) :=
  summarize_chunks_success_sequence _ (fun _ _ => pstr " r ") [pstr "c1"]
    (some (pstr "k")) none rfl (fun _ _ => rfl)

/-- Claim C9 (counterexample): a chunk need not be a contiguous substring of
the input: on `"a\n\n \n\nb"` the single returned chunk `"a\n\nb"` is not a
substring of the input. -/
theorem chunk_not_substring_example :
    chunk_text (pstr "a\n\n \n\nb") 4000 = [pstr "a\n\nb"]
      ∧ isSubstring (pstr "a\n\nb") (pstr "a\n\n \n\nb") = false :=
  ⟨by decide, by decide⟩

/-- Claim C9 (amended): every chunk returned by `chunk_text` is the
blank-line join of a contiguous run of the input's non-blank paragraphs
(but not necessarily a contiguous substring of the input). -/
theorem chunk_is_join_of_paragraph_run (text : PyStr) (max_chars : Int) :
    ∀ c ∈ chunk_text text max_chars,
      ∃ g, c = joinNN g
        ∧ g <:+: (splitNN text).filter (fun p => ! isBlank p) := by
  intro c hc
  rw [chunk_text_eq_groups] at hc
  obtain ⟨g, hg, rfl⟩ := List.mem_map.mp hc
  refine ⟨g, rfl, ?_⟩
  rw [← chunkGroups_flatten text max_chars]
  exact List.infix_of_mem_flatten hg

/-- Witness for the amended C9 at a concrete two-paragraph input. -/
theorem chunk_is_join_of_paragraph_run_witness :
    ∃ g, pstr "a\n\nbb" = joinNN g
      ∧ g <:+: (splitNN (pstr "a\n\nbb")).filter (fun p => ! isBlank p) :=
  chunk_is_join_of_paragraph_run (pstr "a\n\nbb") 4000 (pstr "a\n\nbb") (by decide)

/-- Claim C10: whenever the first non-blank paragraph `p` of the input
satisfies `len(p) + 2 > max_chars`, the first chunk returned by
`chunk_text` is the empty string. -/
theorem chunk_text_leading_empty_chunk (text : PyStr) (max_chars : Int) (p : PyStr)
    (hhead : ((splitNN text).filter (fun q => ! isBlank q)).head? = some p)
    (hov : (p.length : Int) + 2 > max_chars) :
    (chunk_text text max_chars).head? = some [] := by
  unfold chunk_text
  exact chunk_head_empty_of_oversized max_chars (splitNN text) p hhead hov

/-- Witness for C10: a four-character paragraph with `max_chars = 3`. -/
theorem chunk_text_leading_empty_chunk_witness :
    (chunk_text (pstr "aaaa") 3).head? = some [] :=
  chunk_text_leading_empty_chunk (pstr "aaaa") 3 (pstr "aaaa") (by decide) (by decide)
